import Mathlib

/-!
Shallow embedding of the `ij` dependency-injection framework
(`src/unnamed/part_000`: classes `Registry`, `Provider`, `Injector`,
`ProviderNotFound`, functions `getDependencyNames` and `assert`).

Modelling conventions, each justified by the JavaScript source:

* JS values passed to registration and produced by factories are modelled by
  the inductive `Value`.  A function value carries a numeric identifier `fid`
  (its behaviour is supplied by an environment `FEnv : Nat → List Value →
  Except JsError Value`, so factories stay first-order and executable) and the
  ordered dependency-name list that `getDependencyNames` extracts from it
  (the `$ij` field or the declared parameter names — both yield the same
  ordered list of strings, so one list models both paths).
* `immutable.Map` is modelled as an association list with functional update
  (`setA` replaces an existing key or appends); `Map.set` of the `immutable`
  library returns a new map and never mutates the receiver, which is exactly
  the behaviour of a pure Lean value.
* `Promise` control flow is deterministic single-threaded cooperative
  scheduling (spec section 5).  A `build(name)` call in the source runs in two
  phases: every `_build` call in the dependency tree happens synchronously
  (the recursive calls occur inside `provider.dependencies.map`, before any
  `.then` continuation runs), and every construction / cache write happens
  later in microtasks.  The embedding mirrors this: `planP` is the synchronous
  phase (it reads the cache, looks up providers, and can throw synchronously),
  `execT`/`execL` are the asynchronous phase (constructions bottom-up,
  cache writes on success).  Sibling subtrees created before a synchronous
  throw still run their constructions (their promise chains already exist),
  which is why a thrown plan carries the `pending` subtrees.
* `class` bodies are strict-mode code in JavaScript, so the assignment
  `err.parents = [provider.name]` in `Injector._build` (line 238) assigns to
  the getter-only accessor `parents` of `ProviderNotFound` and throws a
  `TypeError`.  The `_parents` backing slot is modelled by
  `JsError.parentsSlot : Option (List String)`; `err.parents.push(x)` on an
  unset slot mutates only the fresh array produced by the getter and is a
  no-op on the error object (`parentsPush`).
* When `Injector._build` finds `provider.name` in the cache it returns the
  cached *raw value* (not a promise of a results map); the caller immediately
  invokes `.then` (in `build`) or `.catch` (in the dependency map) on it,
  which throws a `TypeError` since plain values have no such methods.
-/

namespace Ij

/-- Model of a JavaScript runtime value as far as this library observes it.
`func fid ij` is a function value: `fid` indexes its behaviour in an `FEnv`,
`ij` is the ordered dependency-name list `getDependencyNames` reads off it. -/
inductive Value where
  | null
  | undefined
  | bool (b : Bool)
  | num (n : Int)
  | str (s : String)
  | func (fid : Nat) (ij : List String)
deriving DecidableEq, Repr

/-- `typeof v == 'function'`. -/
def Value.isFunc : Value → Bool
  | .func _ _ => true
  | _ => false

/-- JS loose inequality `v != null`: false exactly for `null` and `undefined`. -/
def jsNotNull : Value → Bool
  | .null => false
  | .undefined => false
  | _ => true

/-- Which JS error class an error value belongs to (`instanceof` checks). -/
inductive ErrKind where
  | plainError
  | typeError
  | providerNotFound
deriving DecidableEq, Repr

/-- A JS error object.  `parentsSlot` models the `_parents` field of
`ProviderNotFound` (`none` = never assigned, so the `parents` getter
returns a fresh empty array). -/
structure JsError where
  kind : ErrKind
  msg : String
  parentsSlot : Option (List String)
deriving DecidableEq, Repr

/-- The `parents` getter of `ProviderNotFound`: `this._parents || []`. -/
def JsError.parents (e : JsError) : List String :=
  e.parentsSlot.getD []

/-- `err.parents.push(n)`: pushes onto the array returned by the getter.
When `_parents` is unset the getter returns a fresh array, so the push is
lost; when set, the underlying array is mutated. -/
def parentsPush (e : JsError) (n : String) : JsError :=
  match e.parentsSlot with
  | none => e
  | some l => { e with parentsSlot := some (l ++ [n]) }

/-- The unused `ProviderNotFound.addParent` method of the source, modelled for
completeness: no call site exists in `part_000`. -/
def JsError.addParent (e : JsError) (n : String) : JsError :=
  match e.parentsSlot with
  | none => { e with parentsSlot := some [n] }
  | some l => { e with parentsSlot := some (l ++ [n]) }

/-- Association-list model of `immutable.Map` keyed by strings. -/
abbrev AList (α : Type) := List (String × α)

/-- `map.get(k)`. -/
def lookupA {α : Type} : AList α → String → Option α
  | [], _ => none
  | (k', v') :: rest, k => if k' = k then some v' else lookupA rest k

/-- `map.set(k, v)`: functional update, replacing an existing binding. -/
def setA {α : Type} : AList α → String → α → AList α
  | [], k, v => [(k, v)]
  | (k', v') :: rest, k, v =>
      if k' = k then (k, v) :: rest else (k', v') :: setA rest k v

/-- `map.has(k)`. -/
def containsA {α : Type} (l : AList α) (k : String) : Bool :=
  (lookupA l k).isSome

/-- The three provider kinds of the source (`'CONSTANT' | 'CTOR' | 'FN'`). -/
inductive PType where
  | constant
  | ctor
  | fn
deriving DecidableEq, Repr

/-- The `Provider` descriptor class (sealed record). -/
structure Provider where
  name : String
  type : PType
  factory : Value
  dependencies : List String
  isCacheable : Bool
deriving DecidableEq, Repr

/-- The options object read by `Registry._add`: only `using` and
`isCacheable` are ever consulted; `override` is carried along because the
spec mentions it, but no code in `part_000` reads it. -/
structure ROptions where
  override : Bool
  usingMap : Option (AList String)
  isCacheable : Bool
deriving DecidableEq, Repr

/-- The default `{}` options object. -/
def defaultOptions : ROptions := ⟨false, none, false⟩

/-- `options.using[d] || d`: a missing key — or a key mapped to the falsy
empty string — leaves the raw name unchanged. -/
def mapDep (m : AList String) (d : String) : String :=
  match lookupA m d with
  | some s => if s = "" then d else s
  | none => d

/-- `getDependencyNames(fn)`: returns the explicit `$ij` list when present,
otherwise the declared parameter names; both are the ordered list carried on
the function value.  Non-functions never reach this point in the source. -/
def getDependencyNames : Value → List String
  | .func _ ij => ij
  | _ => []

/-- The `assert(val, msg)` helper: throws `new Error(msg)` on a falsy value. -/
def assertJs (cond : Bool) (msg : String) : Except JsError Unit :=
  if cond then .ok () else .error ⟨.plainError, msg, none⟩

/-- The `Registry` class: an immutable map from provider name to `Provider`. -/
structure Registry where
  providers : AList Provider
deriving DecidableEq, Repr

/-- `new Registry()`. -/
def Registry.empty : Registry := ⟨[]⟩

/-- `Registry._add`: rewrites dependency names through `options.using`,
builds the sealed `Provider`, and returns a *new* `Registry` whose map is the
old map plus the (added or replaced) entry.  There is no conflict check and
`options.override` is never read. -/
def Registry.addP (r : Registry) (name : String) (type : PType) (factory : Value)
    (deps : List String) (options : ROptions) : Registry :=
  let mappedDeps :=
    match options.usingMap with
    | some m => deps.map (mapDep m)
    | none => deps
  ⟨setA r.providers name ⟨name, type, factory, mappedDeps, options.isCacheable⟩⟩

/-- `Registry.ctor(name, Ctor, opt_options)`. -/
def Registry.ctor (r : Registry) (name : String) (c : Value) (options : ROptions) :
    Except JsError Registry := do
  assertJs c.isFunc ("Cannot provide nonfunction for constructor provider " ++ name)
  pure (r.addP name .ctor c (getDependencyNames c) options)

/-- `Registry.constant(name, constant)`: no options parameter exists, so
`_add` receives the default `{}`. -/
def Registry.constant (r : Registry) (name : String) (c : Value) :
    Except JsError Registry := do
  assertJs (jsNotNull c) ("Cannot provide null for constant provider " ++ name)
  pure (r.addP name .constant c [] defaultOptions)

/-- `Registry.fn(name, fn, opt_options)`. -/
def Registry.fn (r : Registry) (name : String) (f : Value) (options : ROptions) :
    Except JsError Registry := do
  assertJs f.isFunc ("Cannot provide nonfunction for function provider " ++ name)
  pure (r.addP name .fn f (getDependencyNames f) options)

/-- The `Injector` class: the borrowed provider map plus the mutable cache. -/
structure Injector where
  providers : AList Provider
  cache : AList Value
deriving DecidableEq, Repr

/-- `Registry.buildInjector()`: fresh injector with an empty cache. -/
def Registry.buildInjector (r : Registry) : Injector := ⟨r.providers, []⟩

/-!
The synchronous phase of `Injector.build` / `Injector._build`.

Every `_build` call of one top-level `build(name)` runs synchronously: the
recursive `this._build(depProvider)` calls occur inside
`provider.dependencies.map(...)` before any promise continuation fires, so
the whole dependency tree is traversed — and the cache is read at every node
— before any construction or cache write happens.  `planP` performs this
traversal, producing the tree of promise chains that were created
(`PTree`), or the synchronous throw that aborted the traversal:

* cache hit (`this._cache.has(provider.name)`): `_build` returns the cached
  raw value; the caller immediately calls `.then` (top level) or `.catch`
  (dependency position) on it, and plain values have neither method, so a
  `TypeError` is thrown;
* missing dependency: `err.parents = [provider.name]` assigns to the
  getter-only `parents` accessor inside strict-mode class code and throws a
  `TypeError` (the `Promise.reject(err)` on the next line is unreachable);
* cycles make the synchronous recursion non-terminating (stack overflow);
  the `fuel` parameter bounds the recursion depth in the model, and
  `noFuel` marks exhaustion of every bound.

A synchronous throw aborts the traversal, but subtrees whose promise chains
were already created still run their constructions in microtasks: those are
the `pending` trees of a thrown result.
-/

/-- A node of the tree of promise chains created by the synchronous phase:
one `_build` activation and the activations of its dependencies. -/
inductive PTree where
  | node (p : Provider) (children : List PTree)
deriving Repr

/-- `TypeError` raised by calling `.then`/`.catch` on the raw cached value
that `_build` returns on a cache hit. -/
def cacheHitTypeError : JsError :=
  ⟨.typeError, "this._build(...).then is not a function", none⟩

/-- `TypeError` raised by `err.parents = [provider.name]`: assignment to the
getter-only accessor `parents` of `ProviderNotFound` in strict-mode code. -/
def parentsSetterTypeError : JsError :=
  ⟨.typeError, "Cannot set property parents of ProviderNotFound which has only a getter", none⟩

/-- Result of planning one provider. -/
inductive PlanRes where
  | okT (t : PTree)
  | thrownT (e : JsError) (pending : List PTree)
  | noFuel
deriving Repr

/-- Result of planning a dependency list. -/
inductive PlanLRes where
  | okL (ts : List PTree)
  | thrownL (e : JsError) (pending : List PTree)
  | noFuelL
deriving Repr

/-- The loop body of `provider.dependencies.map((depName) => ...)`:
looks up each dependency's provider (a miss throws the setter `TypeError`)
and recurses via `recur` (the `_build` of the next depth).  On a throw, the
already-created sibling subtrees are kept as `pending`. -/
def planDepsF (provs : AList Provider) (recur : Provider → PlanRes) :
    List String → PlanLRes
  | [] => .okL []
  | d :: rest =>
    match lookupA provs d with
    | none => .thrownL parentsSetterTypeError []
    | some dp =>
      match recur dp with
      | .noFuel => .noFuelL
      | .thrownT e pend => .thrownL e pend
      | .okT t =>
        match planDepsF provs recur rest with
        | .okL ts => .okL (t :: ts)
        | .thrownL e pend => .thrownL e (t :: pend)
        | .noFuelL => .noFuelL

/-- The synchronous phase of `Injector._build` for one provider, bounded by
`fuel` (the recursion depth of the model; the source recurses unboundedly). -/
def planP (provs : AList Provider) (cache0 : AList Value) :
    Nat → Provider → PlanRes
  | 0, _ => .noFuel
  | fuel + 1, p =>
    if containsA cache0 p.name then .thrownT cacheHitTypeError []
    else
      match planDepsF provs (fun dp => planP provs cache0 fuel dp) p.dependencies with
      | .okL ts => .okT (.node p ts)
      | .thrownL e pend => .thrownT e pend
      | .noFuelL => .noFuel

/-!
The asynchronous phase: constructions run bottom-up in microtasks.  Every
child promise chain settles independently of its siblings (a sibling's
rejection does not cancel it), so `execL` executes every child in order and
only afterwards does the parent inspect the outcomes; `Promise.all` rejects
with the first rejection.  The relative settlement order between disjoint
branches is not observable through the final cache, invocation multiset, or
outcome of any run in this development, so the model fixes left-to-right
order.
-/

/-- The mutable state threaded through the asynchronous phase: the
injector's cache (`this._cache`) and the log of provider names whose
construction rule (`CTOR`/`FN` factory) was invoked, in invocation order. -/
structure BuildSt where
  cache : AList Value
  invoked : List String
deriving DecidableEq, Repr

/-- Settlement of one `_build` promise: the results map it fulfils with, or
the error it rejects with. -/
inductive ExecOut where
  | okR (results : AList Value)
  | errR (e : JsError)
deriving DecidableEq, Repr

/-- Factory behaviour environment: `fenv fid args` is the (awaited) result of
invoking function value `fid` — `new factory(...args)` for `CTOR`, plain call
for `FN` — with the resolved dependency values as positional arguments. -/
abbrev FEnv := Nat → List Value → Except JsError Value

/-- `Injector._buildProvider`: resolves the positional arguments from the
results map (a missing key reads as JS `undefined`) and dispatches on the
provider type.  `CONSTANT` returns the stored factory value without any
invocation; `CTOR`/`FN` invoke the factory (logged in `invoked`).  The
non-function fallbacks are unreachable for providers produced by
registration, which asserts `typeof factory == 'function'`. -/
def buildProviderM (fenv : FEnv) (p : Provider) (results : AList Value)
    (st : BuildSt) : Except JsError Value × BuildSt :=
  let args := p.dependencies.map (fun d => (lookupA results d).getD .undefined)
  match p.type with
  | .constant => (.ok p.factory, st)
  | .ctor =>
    match p.factory with
    | .func fid _ => (fenv fid args, { st with invoked := st.invoked ++ [p.name] })
    | _ => (.error ⟨.typeError, "provider factory is not a constructor", none⟩, st)
  | .fn =>
    match p.factory with
    | .func fid _ => (fenv fid args, { st with invoked := st.invoked ++ [p.name] })
    | _ => (.error ⟨.typeError, "provider factory is not a function", none⟩, st)

/-- The `.catch` attached to each child in `_build`: a `ProviderNotFound`
rejection gets `err.parents.push(provider.name)` (a no-op while `_parents`
is unset) before being rethrown; other rejections pass through. -/
def annotateChild (parentName : String) : ExecOut → ExecOut
  | .errR e =>
      .errR (if e.kind = .providerNotFound then parentsPush e parentName else e)
  | o => o

/-- First rejection among the children, as `Promise.all` reports it. -/
def firstErrR : List ExecOut → Option JsError
  | [] => none
  | .errR e :: _ => some e
  | .okR _ :: rest => firstErrR rest

/-- Results map of a fulfilled child (only consulted when no child failed). -/
def resultsOf : ExecOut → AList Value
  | .okR m => m
  | .errR _ => []

/-- `new immutable.Map().merge(...depResults)`: later maps override earlier
bindings. -/
def mergeResults (ms : List (AList Value)) : AList Value :=
  ms.foldl (fun acc m => m.foldl (fun a kv => setA a kv.1 kv.2) acc) []

mutual

/-- Asynchronous phase of `_build` for one planned node: settle all child
promises, then either reject with the first child failure (construction
skipped, no cache write) or invoke the construction rule; on success a
cacheable provider's raw result is stored in the cache, and the promise
fulfils with `results.set(provider.name, result)`. -/
def execT (fenv : FEnv) (t : PTree) (st : BuildSt) : ExecOut × BuildSt :=
  match t with
  | .node p children =>
    let r1 := execL fenv children st
    let outs := r1.1.map (annotateChild p.name)
    match firstErrR outs with
    | some e => (.errR e, r1.2)
    | none =>
      let results := mergeResults (outs.map resultsOf)
      let r2 := buildProviderM fenv p results r1.2
      match r2.1 with
      | .error e => (.errR e, r2.2)
      | .ok v =>
        if p.isCacheable then
          (.okR (setA results p.name v), ⟨setA r2.2.cache p.name v, r2.2.invoked⟩)
        else
          (.okR (setA results p.name v), r2.2)

/-- Settle a list of sibling subtrees left to right; every sibling runs to
completion regardless of earlier failures. -/
def execL (fenv : FEnv) (ts : List PTree) (st : BuildSt) :
    List ExecOut × BuildSt :=
  match ts with
  | [] => ([], st)
  | t :: rest =>
    let r := execT fenv t st
    let rs := execL fenv rest r.2
    (r.1 :: rs.1, rs.2)

end

/-- Overall outcome of one `injector.build(name)` call. -/
inductive BuildOutcome where
  | resolved (v : Value)
  | rejected (e : JsError)
  | thrown (e : JsError)
  | outOfFuel
deriving DecidableEq, Repr

/-- `Injector.build(name)`, run to quiescence (all microtasks drained).
Returns the call's outcome together with the final cache and the invocation
log of the call.  Follows `build` line by line: unregistered names reject
with a plain `Error`; otherwise the synchronous phase runs, a synchronous
`TypeError` escapes `build` itself as a throw (pending subtrees still
execute), and a settled run maps a fulfilment through
`results.get(provider.name)` and pipes a rejection through the
`ProviderNotFound` chain-wrapping `catch` (whose chain is read from the
`_parents` slot). -/
def Injector.buildRun (fenv : FEnv) (fuel : Nat) (inj : Injector)
    (name : String) : BuildOutcome × BuildSt :=
  let st0 : BuildSt := ⟨inj.cache, []⟩
  match lookupA inj.providers name with
  | none =>
    (.rejected ⟨.plainError, "Provider not found for \"" ++ name ++ "\"", none⟩, st0)
  | some p =>
    match planP inj.providers inj.cache fuel p with
    | .noFuel => (.outOfFuel, st0)
    | .thrownT e pending => (.thrown e, (execL fenv pending st0).2)
    | .okT t =>
      let r := execT fenv t st0
      match r.1 with
      | .okR results => (.resolved ((lookupA results p.name).getD .undefined), r.2)
      | .errR e =>
        if e.kind = .providerNotFound then
          let e2 := parentsPush e name
          let chain := String.intercalate " → " e2.parents
          (.rejected ⟨.plainError,
              e.msg ++ "(in dependency chain: " ++ chain ++ ")", none⟩, r.2)
        else
          (.rejected e, r.2)

/-- `Registry.build(name)`: `this.buildInjector().build(name)`. -/
def Registry.buildRun (fenv : FEnv) (fuel : Nat) (r : Registry) (name : String) :
    BuildOutcome × BuildSt :=
  Injector.buildRun fenv fuel r.buildInjector name

/-! Concrete fixtures and invariant definitions used by the theorems below. -/

/-- Factory environment for the caching scenario: the `greeting` factory
returns a fixed string. -/
def fenvGreet : FEnv := fun _ _ => .ok (.str "greet")

/-- The registry of the spec's caching example: constant `port`, cacheable
function `greeting` depending on `port`. -/
def regCache : Registry :=
  ⟨[("port", ⟨"port", .constant, .num 8080, [], false⟩),
    ("greeting", ⟨"greeting", .fn, .func 0 ["port"], ["port"], true⟩)]⟩

/-- Factory environment returning `0` for every factory. -/
def fenvZero : FEnv := fun _ _ => .ok (.num 0)

/-- Diamond registry: `root` depends on `a` and `b`, both of which depend on
`shared`; `cacheShared` sets `shared`'s `isCacheable` flag. -/
def regDiamond (cacheShared : Bool) : Registry :=
  ⟨[("shared", ⟨"shared", .fn, .func 2 [], [], cacheShared⟩),
    ("a", ⟨"a", .fn, .func 0 ["shared"], ["shared"], false⟩),
    ("b", ⟨"b", .fn, .func 1 ["shared"], ["shared"], false⟩),
    ("root", ⟨"root", .fn, .func 3 ["a", "b"], ["a", "b"], false⟩)]⟩

/-- Provider `a` of the cyclic registry. -/
def provCycleA : Provider := ⟨"a", .fn, .func 0 ["b"], ["b"], false⟩

/-- Provider `b` of the cyclic registry. -/
def provCycleB : Provider := ⟨"b", .fn, .func 1 ["a"], ["a"], false⟩

/-- Cyclic registry: `a` depends on `b` and `b` depends on `a`. -/
def regCycle : Registry := ⟨[("a", provCycleA), ("b", provCycleB)]⟩

/-- Registry whose only provider `a` depends on the unregistered `b`. -/
def regMissingDep : Registry :=
  ⟨[("a", ⟨"a", .fn, .func 0 ["b"], ["b"], false⟩)]⟩

/-- The options object `{using: {db: "primaryDb"}}`. -/
def optsUsing : ROptions := ⟨false, some [("db", "primaryDb")], false⟩

/-- The `svc` provider as stored after registration with `optsUsing`: the
raw dependency `"db"` was rewritten to `"primaryDb"`, `"cfg"` kept. -/
def provSvc : Provider := ⟨"svc", .fn, .func 0 ["db", "cfg"], ["primaryDb", "cfg"], false⟩

/-- Registry for the `using` scenario: constants `primaryDb` and `cfg`, and
the function `svc` declared with raw dependencies `["db", "cfg"]`. -/
def regUsing : Registry :=
  ⟨[("primaryDb", ⟨"primaryDb", .constant, .num 5, [], false⟩),
    ("cfg", ⟨"cfg", .constant, .str "c", [], false⟩),
    ("svc", provSvc)]⟩

/-- Factory environment for the C7 witness. -/
def fenvSvc : FEnv := fun _ _ => .ok (.str "svc-result")

/-- Well-formed provider map: every stored provider is keyed by its own
`name` (true of every map produced by `Registry._add`, which stores the
provider under the `name` it was built with; the source requires injectors
to be built only with `Registry#buildInjector()`). -/
def ProvsWN (provs : AList Provider) : Prop :=
  ∀ k p, lookupA provs k = some p → p.name = k

/-- A planned tree is well-formed when every node holds the provider the
provider map stores under that node's name. -/
inductive TreeWF (provs : AList Provider) : PTree → Prop where
  | node {p : Provider} {children : List PTree}
      (hp : lookupA provs p.name = some p)
      (hc : ∀ t ∈ children, TreeWF provs t) :
      TreeWF provs (.node p children)

/-- Evolution relation between two cache snapshots: no entry is removed, and
every entry of the later cache either was already present or belongs to a
cacheable provider of the map. -/
def CacheP (provs : AList Provider) (c1 c2 : AList Value) : Prop :=
  (∀ k, containsA c1 k = true → containsA c2 k = true)
  ∧ (∀ j, containsA c2 j = true →
      containsA c1 j = true
      ∨ ∃ p, lookupA provs j = some p ∧ p.isCacheable = true)

/-- Cache-evolution property of executing one tree, for every start state. -/
def ExecCacheOK (provs : AList Provider) (t : PTree) : Prop :=
  ∀ (fenv : FEnv) (st : BuildSt), CacheP provs st.cache (execT fenv t st).2.cache

/-- Injector for the C10 witness: one cacheable constant, already cached. -/
def injCached : Injector :=
  ⟨[("c", ⟨"c", .constant, .num 1, [], true⟩)], [("c", .num 7)]⟩


/-! Association-list lemmas. -/

theorem lookupA_setA_self {α : Type} (l : AList α) (k : String) (v : α) :
    lookupA (setA l k v) k = some v := by
  induction l with
  | nil => simp [setA, lookupA]
  | cons hd tl ih =>
    by_cases h : hd.1 = k
    · simp [setA, h, lookupA]
    · simp [setA, h, lookupA, ih]

theorem lookupA_setA_ne {α : Type} (l : AList α) (k j : String) (v : α)
    (h : j ≠ k) : lookupA (setA l k v) j = lookupA l j := by
  induction l with
  | nil => simp [setA, lookupA, Ne.symm h]
  | cons hd tl ih =>
    by_cases hk : hd.1 = k
    · subst hk
      simp [setA, lookupA, Ne.symm h]
    · simp only [setA, if_neg hk, lookupA]
      by_cases hj : hd.1 = j
      · simp [hj]
      · simp [hj, ih]

theorem containsA_setA_of {α : Type} (l : AList α) (k j : String) (v : α)
    (h : containsA l j = true) : containsA (setA l k v) j = true := by
  by_cases hj : j = k
  · subst hj; simp [containsA, lookupA_setA_self]
  · simpa [containsA, lookupA_setA_ne l k j v hj] using h

theorem containsA_setA_elim {α : Type} (l : AList α) (k j : String) (v : α)
    (h : containsA (setA l k v) j = true) : j = k ∨ containsA l j = true := by
  by_cases hj : j = k
  · exact Or.inl hj
  · right; simpa [containsA, lookupA_setA_ne l k j v hj] using h

/-! Concrete fixtures used by the counterexample-style theorems. -/

/-- `regCache` as produced by the registration API itself. -/
theorem regCache_from_api :
    (Registry.empty.constant "port" (.num 8080) >>= fun r =>
      r.fn "greeting" (.func 0 ["port"]) ⟨false, none, true⟩)
      = .ok regCache := rfl

/-- C1: the claim states that for a provider registered with
`isCacheable = true`, two sequential `build(name)` calls on the same Injector
both resolve to the identical value, with the construction rule invoked
exactly once and the second call served from the cache.  The code violates
this: the first call resolves, invokes the factory once and stores the raw
result in the cache, but the second call finds the cache entry, `_build`
returns the raw value where `build` expects a promise of a results map, and
`build` throws a `TypeError` synchronously instead of resolving.  This
theorem evaluates the engine at the failing input and exhibits both calls'
outcomes. -/
theorem c1_second_build_of_cacheable_throws :
    (Injector.buildRun fenvGreet 9 regCache.buildInjector "greeting").1
        = .resolved (.str "greet")
    ∧ (Injector.buildRun fenvGreet 9 regCache.buildInjector "greeting").2.invoked
        = ["greeting"]
    ∧ (Injector.buildRun fenvGreet 9 regCache.buildInjector "greeting").2.cache
        = [("greeting", .str "greet")]
    ∧ (Injector.buildRun fenvGreet 9
        ⟨regCache.providers,
         (Injector.buildRun fenvGreet 9 regCache.buildInjector "greeting").2.cache⟩
        "greeting").1 = .thrown cacheHitTypeError
    ∧ (Injector.buildRun fenvGreet 9
        ⟨regCache.providers,
         (Injector.buildRun fenvGreet 9 regCache.buildInjector "greeting").2.cache⟩
        "greeting").2.invoked = [] := by
  decide

/-- C2: the claim states that within one top-level `build` call a provider
required by two different dependents is constructed at most once (shared
in-flight resolution), regardless of `isCacheable`.  The code has no
per-call de-duplication: every occurrence of a provider in the dependency
tree gets its own `_build` promise chain and its own construction, and the
cache is read only during the synchronous traversal — before any write — so
the flag changes nothing within one call.  In the diamond, `shared` is
constructed twice either way. -/
theorem c2_diamond_builds_shared_twice :
    ((Injector.buildRun fenvZero 9 (regDiamond false).buildInjector "root").2.invoked.filter
        (fun s => s == "shared")).length = 2
    ∧ (Injector.buildRun fenvZero 9 (regDiamond false).buildInjector "root").1
        = .resolved (.num 0)
    ∧ ((Injector.buildRun fenvZero 9 (regDiamond true).buildInjector "root").2.invoked.filter
        (fun s => s == "shared")).length = 2
    ∧ (Injector.buildRun fenvZero 9 (regDiamond true).buildInjector "root").1
        = .resolved (.num 0) := by
  decide

/-- One-step unfolding of the planner at positive fuel. -/
theorem planP_succ (provs : AList Provider) (cache0 : AList Value) (n : Nat)
    (p : Provider) :
    planP provs cache0 (n + 1) p =
      if containsA cache0 p.name then .thrownT cacheHitTypeError []
      else
        match planDepsF provs (fun dp => planP provs cache0 n dp) p.dependencies with
        | .okL ts => .okT (.node p ts)
        | .thrownL e pend => .thrownT e pend
        | .noFuelL => .noFuel := by
  rw [planP]

/-- A provider with a single dependency whose planning exhausts the fuel
exhausts the fuel itself at the next depth. -/
theorem planP_succ_noFuel (provs : AList Provider) (cache0 : AList Value)
    (n : Nat) (p dp : Provider) (d : String)
    (hc : containsA cache0 p.name = false)
    (hdeps : p.dependencies = [d])
    (hd : lookupA provs d = some dp)
    (h : planP provs cache0 n dp = .noFuel) :
    planP provs cache0 (n + 1) p = .noFuel := by
  rw [planP_succ, hdeps]
  simp only [hc, Bool.false_eq_true, if_false, planDepsF, hd, h]

/-- The two providers of `regCycle` never finish the synchronous traversal
from an empty cache: for every depth bound the planner runs out of fuel. -/
theorem planP_regCycle_noFuel : ∀ n : Nat,
    planP regCycle.providers [] n provCycleA = .noFuel
    ∧ planP regCycle.providers [] n provCycleB = .noFuel := by
  intro n
  induction n with
  | zero => exact ⟨rfl, rfl⟩
  | succ n ih =>
    exact ⟨planP_succ_noFuel _ _ n provCycleA provCycleB "b" rfl rfl rfl ih.2,
      planP_succ_noFuel _ _ n provCycleB provCycleA "a" rfl rfl rfl ih.1⟩

/-- C3: the claim states that building `a` in a cyclic registry fails
deterministically with a `CycleDetected` error carrying the cyclic path.
The code has no cycle detection at all (no `CycleDetected` exists anywhere
in `part_000`; `buildInjector` only carries a TODO about validating the
graph): the synchronous recursion of `_build` through the cycle never
terminates and overflows the stack.  In the model: for every fuel bound, the
run exhausts the bound. -/
theorem c3_cycle_recursion_unbounded (fenv : FEnv) (fuel : Nat) :
    (Injector.buildRun fenv fuel regCycle.buildInjector "a").1 = .outOfFuel := by
  have h := (planP_regCycle_noFuel fuel).1
  simp only [Injector.buildRun, Registry.buildInjector]
  rw [show lookupA regCycle.providers "a" = some provCycleA from rfl]
  simp [h]

/-- C4: the claim states that `build(name)` of an unregistered `name`
rejects with `ProviderNotFound` whose chain is exactly `[name]`, and that a
registered `a` depending on an unregistered `b` rejects with a
`ProviderNotFound` whose chain ends `["b", "a"]`.  The code does neither: an
unregistered top-level name rejects with a plain `Error` (not a
`ProviderNotFound`, no chain), and a missing dependency throws a synchronous
`TypeError` out of `build` — `err.parents = [provider.name]` assigns to the
getter-only `parents` accessor in strict-mode class code — so no
`ProviderNotFound` with a chain ever escapes (the unused `addParent` method
shows the intended API; the assignment is the slip). -/
theorem c4_not_found_has_no_chain :
    (Injector.buildRun fenvZero 9 regMissingDep.buildInjector "nope").1
        = .rejected ⟨.plainError, "Provider not found for \"nope\"", none⟩
    ∧ (Injector.buildRun fenvZero 9 regMissingDep.buildInjector "a").1
        = .thrown parentsSetterTypeError
    ∧ (Injector.buildRun fenvZero 9 regMissingDep.buildInjector "a").2.invoked = [] := by
  decide

/-- C5 counterexample: the claim states that registering a name already
present without the `override` option fails with `RegistrationConflict`;
in the code the second registration of `"x"` succeeds (no conflict check
exists in `Registry._add`), silently replacing the entry. -/
theorem c5_counterexample :
    Registry.constant (⟨[("x", ⟨"x", .constant, .num 1, [], false⟩)]⟩ : Registry)
        "x" (.num 2)
      = .ok ⟨[("x", ⟨"x", .constant, .num 2, [], false⟩)]⟩ := rfl

/-- A name just registered through `_add` maps to the freshly built
`Provider` in the returned registry. -/
theorem lookupA_addP_constant (r : Registry) (name : String) (v : Value) :
    lookupA (r.addP name .constant v [] defaultOptions).providers name
      = some ⟨name, .constant, v, [], false⟩ := by
  simp [Registry.addP, defaultOptions, lookupA_setA_self]

/-- Registration of a non-null constant always succeeds with the `_add`
result. -/
theorem constant_ok (r : Registry) (name : String) (v : Value)
    (hv : jsNotNull v = true) :
    Registry.constant r name v = .ok (r.addP name .constant v [] defaultOptions) := by
  unfold Registry.constant
  rw [hv]
  rfl

/-- Building a `CONSTANT` provider from a fresh (empty-cache) injector
resolves to the stored value, touches no cache, and invokes no factory. -/
theorem buildRun_constant (fenv : FEnv) (fuel : Nat) (provs : AList Provider)
    (name : String) (v : Value)
    (hl : lookupA provs name = some ⟨name, .constant, v, [], false⟩) :
    Injector.buildRun fenv (fuel + 1) ⟨provs, []⟩ name
      = (.resolved v, ⟨[], []⟩) := by
  simp only [Injector.buildRun]
  rw [hl]
  trans ((BuildOutcome.resolved
      ((lookupA (setA ([] : AList Value) name v) name).getD Value.undefined)),
    ({ cache := [], invoked := [] } : BuildSt))
  · rfl
  · rw [lookupA_setA_self]
    rfl

/-- Building an unregistered name from a fresh injector rejects with the
plain not-found `Error` and changes nothing. -/
theorem buildRun_notFound (fenv : FEnv) (fuel : Nat) (provs : AList Provider)
    (name : String) (hl : lookupA provs name = none) :
    Injector.buildRun fenv fuel ⟨provs, []⟩ name
      = (.rejected ⟨.plainError, "Provider not found for \"" ++ name ++ "\"", none⟩,
         ⟨[], []⟩) := by
  simp only [Injector.buildRun]
  rw [hl]

/-- C5 (amended): registering a name already present in the Registry always
succeeds — `Registry._add` of `part_000` performs no conflict check, never
raises anything, and never reads `options.override`, so the result is
identical with and without the flag; the entry is replaced in the returned
Registry and subsequent builds from that Registry use the replacing
provider. -/
theorem c5_amended_reregistration_replaces (r : Registry) (name : String)
    (v : Value) (fid : Nat) (ij : List String) (um : Option (AList String))
    (cb : Bool) (fenv : FEnv) (fuel : Nat)
    (hpres : containsA r.providers name = true) (hv : jsNotNull v = true) :
    (∃ r2, Registry.constant r name v = .ok r2
      ∧ lookupA r2.providers name = some ⟨name, .constant, v, [], false⟩
      ∧ (Injector.buildRun fenv (fuel + 1) r2.buildInjector name).1 = .resolved v)
    ∧ Registry.fn r name (.func fid ij) ⟨false, um, cb⟩
        = Registry.fn r name (.func fid ij) ⟨true, um, cb⟩ := by
  refine ⟨⟨r.addP name .constant v [] defaultOptions, constant_ok r name v hv,
    lookupA_addP_constant r name v, ?_⟩, rfl⟩
  · have h := buildRun_constant fenv fuel
      (r.addP name .constant v [] defaultOptions).providers name v
      (lookupA_addP_constant r name v)
    simpa [Registry.buildInjector] using congrArg Prod.fst h

/-- C5 witness: a registry already holding `"x"`, re-registered without (and
with) `override`. -/
theorem c5_witness :
    containsA (⟨[("x", ⟨"x", .constant, .num 1, [], false⟩)]⟩ : Registry).providers "x" = true
    ∧ jsNotNull (.num 2) = true
    ∧ ((∃ r2, Registry.constant (⟨[("x", ⟨"x", .constant, .num 1, [], false⟩)]⟩ : Registry)
          "x" (.num 2) = .ok r2
      ∧ lookupA r2.providers "x" = some ⟨"x", .constant, .num 2, [], false⟩
      ∧ (Injector.buildRun fenvZero 1 r2.buildInjector "x").1 = .resolved (.num 2))
    ∧ Registry.fn (⟨[("x", ⟨"x", .constant, .num 1, [], false⟩)]⟩ : Registry)
          "x" (.func 0 []) ⟨false, none, false⟩
        = Registry.fn (⟨[("x", ⟨"x", .constant, .num 1, [], false⟩)]⟩ : Registry)
          "x" (.func 0 []) ⟨true, none, false⟩) :=
  ⟨rfl, rfl,
    c5_amended_reregistration_replaces
      (⟨[("x", ⟨"x", .constant, .num 1, [], false⟩)]⟩ : Registry)
      "x" (.num 2) 0 [] none false fenvZero 0 rfl rfl⟩

/-- C6: for every value accepted by `constant(name, v)`, building `name` on
an injector finalized from the returned registry resolves to exactly `v`,
and the `CONSTANT` construction rule performs no invocation (the invocation
log of the call stays empty). -/
theorem c6_constant_resolves_exactly (r : Registry) (name : String) (v : Value)
    (fenv : FEnv) (fuel : Nat) (hv : jsNotNull v = true) :
    ∃ r2, Registry.constant r name v = .ok r2
      ∧ (Injector.buildRun fenv (fuel + 1) r2.buildInjector name).1 = .resolved v
      ∧ (Injector.buildRun fenv (fuel + 1) r2.buildInjector name).2.invoked = [] := by
  refine ⟨r.addP name .constant v [] defaultOptions, constant_ok r name v hv, ?_, ?_⟩
  · have h := buildRun_constant fenv fuel
      (r.addP name .constant v [] defaultOptions).providers name v
      (lookupA_addP_constant r name v)
    simpa [Registry.buildInjector] using congrArg Prod.fst h
  · have h := buildRun_constant fenv fuel
      (r.addP name .constant v [] defaultOptions).providers name v
      (lookupA_addP_constant r name v)
    simpa [Registry.buildInjector] using congrArg (fun x => x.2.invoked) h

/-- C6 witness: `constant("port", 8080)` builds back exactly `8080`. -/
theorem c6_witness :
    jsNotNull (.num 8080) = true
    ∧ ∃ r2, Registry.constant Registry.empty "port" (.num 8080) = .ok r2
      ∧ (Injector.buildRun fenvZero 1 r2.buildInjector "port").1 = .resolved (.num 8080)
      ∧ (Injector.buildRun fenvZero 1 r2.buildInjector "port").2.invoked = [] :=
  ⟨rfl, c6_constant_resolves_exactly Registry.empty "port" (.num 8080) fenvZero 0 rfl⟩

/-- `regUsing` as produced by the registration API itself (note the factory
declares `["db", "cfg"]`; the stored provider holds the mapped names). -/
theorem regUsing_from_api :
    (Registry.empty.constant "primaryDb" (.num 5) >>= fun r =>
      r.constant "cfg" (.str "c") >>= fun r =>
      r.fn "svc" (.func 0 ["db", "cfg"]) optsUsing)
      = .ok regUsing := rfl

/-- C7: registering a provider with a `using` mapping rewrites each raw
dependency name that is a key of the mapping to its mapped registry name
before storing (here `"db"` becomes `"primaryDb"`, while `"cfg"`, not in the
mapping, is kept), so that `build` resolves the provider actually named
`"primaryDb"` — no provider named `"db"` exists — and passes its resolved
value positionally in the argument slot where `"db"` was declared: the
factory receives exactly `[primaryDb's value, cfg's value]`. -/
theorem c7_using_rewrites_dependencies (fenv : FEnv) (out : Value)
    (hf : fenv 0 [.num 5, .str "c"] = .ok out) :
    lookupA regUsing.providers "svc" = some provSvc
    ∧ provSvc.dependencies = ["primaryDb", "cfg"]
    ∧ lookupA regUsing.providers "db" = none
    ∧ (Injector.buildRun fenv 9 regUsing.buildInjector "svc").1 = .resolved out := by
  refine ⟨rfl, rfl, rfl, ?_⟩
  simp [Injector.buildRun, Registry.buildInjector, regUsing, provSvc, planP, planDepsF,
    execT, execL, buildProviderM, mergeResults, annotateChild, firstErrR, resultsOf,
    containsA, lookupA, setA, mapDep, hf]

/-- C7 witness: the concrete run with a factory returning a fixed string. -/
theorem c7_witness :
    fenvSvc 0 [.num 5, .str "c"] = .ok (.str "svc-result")
    ∧ (lookupA regUsing.providers "svc" = some provSvc
    ∧ provSvc.dependencies = ["primaryDb", "cfg"]
    ∧ lookupA regUsing.providers "db" = none
    ∧ (Injector.buildRun fenvSvc 9 regUsing.buildInjector "svc").1
        = .resolved (.str "svc-result")) :=
  ⟨rfl, c7_using_rewrites_dependencies fenvSvc (.str "svc-result") rfl⟩

/-- C8: registration is functional — two registries forked from a common
ancestor by diverging registration calls are independent.  A fork that
registered `n2` still lacks `n1`: building `n1` from an injector finalized
from fork B rejects with the not-found error, while fork A (which registered
`n1`) builds it successfully.  (That the receiver registry itself is left
unchanged is inherent to the model: `immutable.Map.set` returns a new map,
embedded here as the pure functional update `setA`.) -/
theorem c8_fork_independence (r : Registry) (n1 n2 : String) (v1 v2 : Value)
    (fenv : FEnv) (fuel : Nat) (hne : n1 ≠ n2)
    (h1 : jsNotNull v1 = true) (h2 : jsNotNull v2 = true)
    (hn1 : lookupA r.providers n1 = none) :
    ∃ rA rB, Registry.constant r n1 v1 = .ok rA
      ∧ Registry.constant r n2 v2 = .ok rB
      ∧ lookupA rB.providers n1 = none
      ∧ (Injector.buildRun fenv (fuel + 1) rB.buildInjector n1).1
          = .rejected ⟨.plainError, "Provider not found for \"" ++ n1 ++ "\"", none⟩
      ∧ (Injector.buildRun fenv (fuel + 1) rA.buildInjector n1).1 = .resolved v1 := by
  have hBlook : lookupA (r.addP n2 .constant v2 [] defaultOptions).providers n1 = none := by
    simp only [Registry.addP]
    rw [lookupA_setA_ne _ _ _ _ hne]
    exact hn1
  refine ⟨r.addP n1 .constant v1 [] defaultOptions,
    r.addP n2 .constant v2 [] defaultOptions,
    constant_ok r n1 v1 h1, constant_ok r n2 v2 h2, hBlook, ?_, ?_⟩
  · have h := buildRun_notFound fenv (fuel + 1)
      (r.addP n2 .constant v2 [] defaultOptions).providers n1 hBlook
    simpa [Registry.buildInjector] using congrArg Prod.fst h
  · have h := buildRun_constant fenv fuel
      (r.addP n1 .constant v1 [] defaultOptions).providers n1 v1
      (lookupA_addP_constant r n1 v1)
    simpa [Registry.buildInjector] using congrArg Prod.fst h

/-- C8 witness: forks over the empty registry with names `a` and `b`. -/
theorem c8_witness :
    ("a" : String) ≠ "b"
    ∧ jsNotNull (.num 1) = true
    ∧ jsNotNull (.num 2) = true
    ∧ lookupA Registry.empty.providers "a" = none
    ∧ ∃ rA rB, Registry.constant Registry.empty "a" (.num 1) = .ok rA
      ∧ Registry.constant Registry.empty "b" (.num 2) = .ok rB
      ∧ lookupA rB.providers "a" = none
      ∧ (Injector.buildRun fenvZero 1 rB.buildInjector "a").1
          = .rejected ⟨.plainError, "Provider not found for \"" ++ "a" ++ "\"", none⟩
      ∧ (Injector.buildRun fenvZero 1 rA.buildInjector "a").1 = .resolved (.num 1) :=
  ⟨by decide, rfl, rfl, rfl,
    c8_fork_independence Registry.empty "a" "b" (.num 1) (.num 2) fenvZero 0
      (by decide) rfl rfl rfl⟩

/-- C9: registration-time validation is synchronous and local: `ctor` and
`fn` reject any non-function factory, and `constant` rejects `null` and
`undefined`, each with the invalid-provider `Error` thrown by `assert`
(the condition the spec's taxonomy labels `InvalidProvider`); the failing
call returns only the error — no registry is produced, so no provider is
added and the resolution engine is never involved. -/
theorem c9_registration_validation (r : Registry) (name : String)
    (o : ROptions) (v w : Value)
    (hv : v.isFunc = false) (hw : jsNotNull w = false) :
    Registry.ctor r name v o
        = .error ⟨.plainError, "Cannot provide nonfunction for constructor provider " ++ name, none⟩
    ∧ Registry.fn r name v o
        = .error ⟨.plainError, "Cannot provide nonfunction for function provider " ++ name, none⟩
    ∧ Registry.constant r name w
        = .error ⟨.plainError, "Cannot provide null for constant provider " ++ name, none⟩ := by
  refine ⟨?_, ?_, ?_⟩
  · unfold Registry.ctor
    rw [hv]
    rfl
  · unfold Registry.fn
    rw [hv]
    rfl
  · unfold Registry.constant
    rw [hw]
    rfl

/-- C9 witness: a plain object (non-function) for `ctor`/`fn`, `null` for
`constant`. -/
theorem c9_witness :
    Value.isFunc (.num 0) = false
    ∧ jsNotNull Value.null = false
    ∧ Registry.ctor Registry.empty "a" (.num 0) defaultOptions
        = .error ⟨.plainError, "Cannot provide nonfunction for constructor provider " ++ "a", none⟩
    ∧ Registry.fn Registry.empty "a" (.num 0) defaultOptions
        = .error ⟨.plainError, "Cannot provide nonfunction for function provider " ++ "a", none⟩
    ∧ Registry.constant Registry.empty "a" .null
        = .error ⟨.plainError, "Cannot provide null for constant provider " ++ "a", none⟩ :=
  ⟨rfl, rfl,
    (c9_registration_validation Registry.empty "a" defaultOptions (.num 0) .null rfl rfl).1,
    (c9_registration_validation Registry.empty "a" defaultOptions (.num 0) .null rfl rfl).2.1,
    (c9_registration_validation Registry.empty "a" defaultOptions (.num 0) .null rfl rfl).2.2⟩

theorem CacheP.refl (provs : AList Provider) (c : AList Value) :
    CacheP provs c c :=
  ⟨fun _ h => h, fun _ h => Or.inl h⟩

theorem CacheP.trans {provs : AList Provider} {c1 c2 c3 : AList Value}
    (h12 : CacheP provs c1 c2) (h23 : CacheP provs c2 c3) :
    CacheP provs c1 c3 := by
  refine ⟨fun k h => h23.1 k (h12.1 k h), fun j h => ?_⟩
  rcases h23.2 j h with h2 | hp
  · exact h12.2 j h2
  · exact Or.inr hp

/-- Writing a cacheable provider's entry is a legal cache evolution. -/
theorem CacheP.set (provs : AList Provider) (c : AList Value) (k : String)
    (v : Value) (p : Provider)
    (hp : lookupA provs k = some p) (hc : p.isCacheable = true) :
    CacheP provs c (setA c k v) := by
  refine ⟨fun j h => containsA_setA_of c k j v h, fun j h => ?_⟩
  rcases containsA_setA_elim c k j v h with hjk | hin
  · exact Or.inr ⟨p, hjk ▸ hp, hc⟩
  · exact Or.inl hin

/-- The construction step itself never touches the cache: in particular a
failed construction leaves the cache exactly as it was. -/
theorem buildProviderM_cache (fenv : FEnv) (p : Provider)
    (results : AList Value) (st : BuildSt) :
    (buildProviderM fenv p results st).2.cache = st.cache := by
  simp only [buildProviderM]
  split
  · rfl
  · split <;> rfl
  · split <;> rfl

/-- Structural strong induction over planned trees. -/
theorem PTree.strongInduction {motive : PTree → Prop}
    (h : ∀ p children, (∀ t, t ∈ children → motive t) → motive (.node p children)) :
    ∀ t, motive t
  | .node p children =>
    h p children (fun t ht => PTree.strongInduction h t)
termination_by t => sizeOf t
decreasing_by
  have h1 := List.sizeOf_lt_of_mem ht
  simp only [PTree.node.sizeOf_spec]
  omega

/-- Executing a list of trees is a legal cache evolution when each tree is. -/
theorem execL_cacheP (provs : AList Provider) (fenv : FEnv) (ts : List PTree)
    (ih : ∀ t ∈ ts, ExecCacheOK provs t) :
    ∀ st : BuildSt, CacheP provs st.cache (execL fenv ts st).2.cache := by
  induction ts with
  | nil => intro st; exact CacheP.refl provs st.cache
  | cons t rest ihr =>
    intro st
    have h1 := ih t (List.mem_cons_self t rest) fenv st
    have h2 := ihr (fun u hu => ih u (List.mem_cons_of_mem t hu)) (execT fenv t st).2
    have e : (execL fenv (t :: rest) st).2 = (execL fenv rest (execT fenv t st).2).2 := rfl
    rw [e]
    exact CacheP.trans h1 h2

/-- Let-free unfolding of `execT` at a node, for rewriting in proofs. -/
theorem execT_node_eq (fenv : FEnv) (p : Provider) (children : List PTree)
    (st : BuildSt) :
    execT fenv (.node p children) st =
      match firstErrR ((execL fenv children st).1.map (annotateChild p.name)) with
      | some e => (.errR e, (execL fenv children st).2)
      | none =>
        match (buildProviderM fenv p
            (mergeResults (((execL fenv children st).1.map (annotateChild p.name)).map resultsOf))
            (execL fenv children st).2).1 with
        | .error e => (.errR e,
            (buildProviderM fenv p
              (mergeResults (((execL fenv children st).1.map (annotateChild p.name)).map resultsOf))
              (execL fenv children st).2).2)
        | .ok v =>
          if p.isCacheable then
            (.okR (setA (mergeResults (((execL fenv children st).1.map (annotateChild p.name)).map resultsOf)) p.name v),
             ⟨setA (buildProviderM fenv p
                 (mergeResults (((execL fenv children st).1.map (annotateChild p.name)).map resultsOf))
                 (execL fenv children st).2).2.cache p.name v,
              (buildProviderM fenv p
                 (mergeResults (((execL fenv children st).1.map (annotateChild p.name)).map resultsOf))
                 (execL fenv children st).2).2.invoked⟩)
          else
            (.okR (setA (mergeResults (((execL fenv children st).1.map (annotateChild p.name)).map resultsOf)) p.name v),
             (buildProviderM fenv p
               (mergeResults (((execL fenv children st).1.map (annotateChild p.name)).map resultsOf))
               (execL fenv children st).2).2) := rfl

/-- Executing a well-formed tree is a legal cache evolution: entries are
only added (never removed), only under a cacheable provider's name, and only
by the success branch of that provider's construction. -/
theorem execT_cacheP (provs : AList Provider) :
    ∀ t, TreeWF provs t → ExecCacheOK provs t := by
  refine PTree.strongInduction ?_
  intro p children ih hwf fenv st
  cases hwf with
  | node hp hc =>
    have hL := execL_cacheP provs fenv children
      (fun t ht => ih t ht (hc t ht)) st
    have hB := buildProviderM_cache fenv p
      (mergeResults (((execL fenv children st).1.map (annotateChild p.name)).map resultsOf))
      (execL fenv children st).2
    rw [execT_node_eq]
    cases hF : firstErrR ((execL fenv children st).1.map (annotateChild p.name)) with
    | some e => exact hL
    | none =>
      cases hR : (buildProviderM fenv p
          (mergeResults (((execL fenv children st).1.map (annotateChild p.name)).map resultsOf))
          (execL fenv children st).2).1 with
      | error e =>
        show CacheP provs st.cache (buildProviderM fenv p
          (mergeResults (((execL fenv children st).1.map (annotateChild p.name)).map resultsOf))
          (execL fenv children st).2).2.cache
        rw [hB]
        exact hL
      | ok v =>
        by_cases hcache : p.isCacheable = true
        · rw [hcache]
          show CacheP provs st.cache (setA (buildProviderM fenv p
            (mergeResults (((execL fenv children st).1.map (annotateChild p.name)).map resultsOf))
            (execL fenv children st).2).2.cache p.name v)
          rw [hB]
          exact CacheP.trans hL (CacheP.set provs _ p.name v p hp hcache)
        · rw [Bool.not_eq_true] at hcache
          rw [hcache]
          show CacheP provs st.cache (buildProviderM fenv p
            (mergeResults (((execL fenv children st).1.map (annotateChild p.name)).map resultsOf))
            (execL fenv children st).2).2.cache
          rw [hB]
          exact hL

/-- Trees planned for a dependency list are well-formed (both the fulfilled
trees and the pending ones kept by a synchronous throw), provided the
recursive planner produces well-formed trees on providers stored under their
own names. -/
theorem planDepsF_wf (provs : AList Provider) (hwn : ProvsWN provs)
    (recur : Provider → PlanRes)
    (hrec : ∀ dp, lookupA provs dp.name = some dp →
      (∀ t, recur dp = .okT t → TreeWF provs t)
      ∧ (∀ e pend, recur dp = .thrownT e pend → ∀ t ∈ pend, TreeWF provs t)) :
    ∀ ds : List String,
      (∀ ts, planDepsF provs recur ds = .okL ts → ∀ t ∈ ts, TreeWF provs t)
      ∧ (∀ e pend, planDepsF provs recur ds = .thrownL e pend →
          ∀ t ∈ pend, TreeWF provs t) := by
  intro ds
  induction ds with
  | nil =>
    refine ⟨fun ts h t ht => ?_, fun e pend h => ?_⟩
    · simp only [planDepsF] at h
      injection h with h
      subst h
      cases ht
    · simp only [planDepsF] at h
      exact absurd h (by simp)
  | cons d rest ihr =>
    cases hd : lookupA provs d with
    | none =>
      refine ⟨fun ts h t ht => ?_, fun e pend h t ht => ?_⟩
      · simp only [planDepsF, hd] at h
        exact absurd h (by simp)
      · simp only [planDepsF, hd] at h
        injection h with h1 h2
        subst h2
        cases ht
    | some dp =>
      have hdp : lookupA provs dp.name = some dp := by
        rw [hwn d dp hd]; exact hd
      have hr := hrec dp hdp
      cases hre : recur dp with
      | noFuel =>
        refine ⟨fun ts h t ht => ?_, fun e pend h t ht => ?_⟩
        · simp only [planDepsF, hd, hre] at h
          exact absurd h (by simp)
        · simp only [planDepsF, hd, hre] at h
          exact absurd h (by simp)
      | thrownT e0 pend0 =>
        refine ⟨fun ts h t ht => ?_, fun e pend h t ht => ?_⟩
        · simp only [planDepsF, hd, hre] at h
          exact absurd h (by simp)
        · simp only [planDepsF, hd, hre] at h
          injection h with h1 h2
          subst h2
          exact hr.2 e0 pend0 hre t ht
      | okT t0 =>
        have ht0 : TreeWF provs t0 := hr.1 t0 hre
        cases hrest : planDepsF provs recur rest with
        | okL ts0 =>
          refine ⟨fun ts h t ht => ?_, fun e pend h t ht => ?_⟩
          · simp only [planDepsF, hd, hre, hrest] at h
            injection h with h1
            subst h1
            rcases List.mem_cons.mp ht with h1 | h2
            · exact h1 ▸ ht0
            · exact (ihr.1 ts0 hrest) t h2
          · simp only [planDepsF, hd, hre, hrest] at h
            exact absurd h (by simp)
        | thrownL e0 pend0 =>
          refine ⟨fun ts h t ht => ?_, fun e pend h t ht => ?_⟩
          · simp only [planDepsF, hd, hre, hrest] at h
            exact absurd h (by simp)
          · simp only [planDepsF, hd, hre, hrest] at h
            injection h with h1 h2
            subst h2
            rcases List.mem_cons.mp ht with h1 | h2
            · exact h1 ▸ ht0
            · exact (ihr.2 e0 pend0 hrest) t h2
        | noFuelL =>
          refine ⟨fun ts h t ht => ?_, fun e pend h t ht => ?_⟩
          · simp only [planDepsF, hd, hre, hrest] at h
            exact absurd h (by simp)
          · simp only [planDepsF, hd, hre, hrest] at h
            exact absurd h (by simp)

/-- Trees produced by the synchronous phase are well-formed when the root
provider is stored under its own name. -/
theorem planP_wf (provs : AList Provider) (cache0 : AList Value)
    (hwn : ProvsWN provs) :
    ∀ (fuel : Nat) (p : Provider), lookupA provs p.name = some p →
      (∀ t, planP provs cache0 fuel p = .okT t → TreeWF provs t)
      ∧ (∀ e pend, planP provs cache0 fuel p = .thrownT e pend →
          ∀ t ∈ pend, TreeWF provs t) := by
  intro fuel
  induction fuel with
  | zero =>
    refine fun p _ => ⟨fun t h => ?_, fun e pend h t ht => ?_⟩
    · simp only [planP] at h
      exact absurd h (by simp)
    · simp only [planP] at h
      exact absurd h (by simp)
  | succ n ihn =>
    intro p hp
    have hd := planDepsF_wf provs hwn (fun dp => planP provs cache0 n dp)
      (fun dp hdp => ihn dp hdp) p.dependencies
    by_cases hc : containsA cache0 p.name = true
    · refine ⟨fun t h => ?_, fun e pend h t ht => ?_⟩
      · rw [planP_succ, if_pos hc] at h
        exact absurd h (by simp)
      · rw [planP_succ, if_pos hc] at h
        injection h with h1 h2
        subst h2
        cases ht
    · rw [Bool.not_eq_true] at hc
      refine ⟨fun t h => ?_, fun e pend h t ht => ?_⟩
      · rw [planP_succ, hc] at h
        simp only [Bool.false_eq_true, if_false] at h
        cases hpd : planDepsF provs (fun dp => planP provs cache0 n dp) p.dependencies with
        | okL ts =>
          rw [hpd] at h
          injection h with h1
          subst h1
          exact TreeWF.node hp (hd.1 ts hpd)
        | thrownL e0 pend0 =>
          rw [hpd] at h
          exact absurd h (by simp)
        | noFuelL =>
          rw [hpd] at h
          exact absurd h (by simp)
      · rw [planP_succ, hc] at h
        simp only [Bool.false_eq_true, if_false] at h
        cases hpd : planDepsF provs (fun dp => planP provs cache0 n dp) p.dependencies with
        | okL ts =>
          rw [hpd] at h
          exact absurd h (by simp)
        | thrownL e0 pend0 =>
          rw [hpd] at h
          injection h with h1 h2
          subst h1
          subst h2
          exact hd.2 e0 pend0 hpd t ht
        | noFuelL =>
          rw [hpd] at h
          exact absurd h (by simp)

/-- Unfolding of `Injector.buildRun` when the name is unregistered. -/
theorem buildRun_eq_none (fenv : FEnv) (fuel : Nat) (inj : Injector)
    (name : String) (hl : lookupA inj.providers name = none) :
    Injector.buildRun fenv fuel inj name
      = (.rejected ⟨.plainError, "Provider not found for \"" ++ name ++ "\"", none⟩,
         ⟨inj.cache, []⟩) := by
  simp only [Injector.buildRun]
  rw [hl]

/-- Unfolding of `Injector.buildRun` when the name is registered. -/
theorem buildRun_eq_some (fenv : FEnv) (fuel : Nat) (inj : Injector)
    (name : String) (p : Provider)
    (hl : lookupA inj.providers name = some p) :
    Injector.buildRun fenv fuel inj name =
      match planP inj.providers inj.cache fuel p with
      | .noFuel => (.outOfFuel, ⟨inj.cache, []⟩)
      | .thrownT e pending => (.thrown e, (execL fenv pending ⟨inj.cache, []⟩).2)
      | .okT t =>
        match (execT fenv t ⟨inj.cache, []⟩).1 with
        | .okR results => (.resolved ((lookupA results p.name).getD .undefined),
            (execT fenv t ⟨inj.cache, []⟩).2)
        | .errR e =>
          if e.kind = .providerNotFound then
            (.rejected ⟨.plainError,
              e.msg ++ "(in dependency chain: " ++
                String.intercalate " → " (parentsPush e name).parents ++ ")", none⟩,
             (execT fenv t ⟨inj.cache, []⟩).2)
          else (.rejected e, (execT fenv t ⟨inj.cache, []⟩).2) := by
  simp only [Injector.buildRun]
  rw [hl]

/-- Unfolding of `Injector.buildRun` when the synchronous phase fulfils. -/
theorem buildRun_eq_okT (fenv : FEnv) (fuel : Nat) (inj : Injector)
    (name : String) (p : Provider) (t : PTree)
    (hl : lookupA inj.providers name = some p)
    (hpl : planP inj.providers inj.cache fuel p = .okT t) :
    Injector.buildRun fenv fuel inj name =
      match (execT fenv t ⟨inj.cache, []⟩).1 with
      | .okR results => (.resolved ((lookupA results p.name).getD .undefined),
          (execT fenv t ⟨inj.cache, []⟩).2)
      | .errR e =>
        if e.kind = .providerNotFound then
          (.rejected ⟨.plainError,
            e.msg ++ "(in dependency chain: " ++
              String.intercalate " → " (parentsPush e name).parents ++ ")", none⟩,
           (execT fenv t ⟨inj.cache, []⟩).2)
        else (.rejected e, (execT fenv t ⟨inj.cache, []⟩).2) := by
  rw [buildRun_eq_some fenv fuel inj name p hl, hpl]

/-- Every `build(name)` call is a legal cache evolution of the injector's
cache (for injectors whose providers are stored under their own names, as
`Registry#buildInjector` produces them). -/
theorem buildRun_cacheP (fenv : FEnv) (fuel : Nat) (inj : Injector)
    (name : String) (hwn : ProvsWN inj.providers) :
    CacheP inj.providers inj.cache
      (Injector.buildRun fenv fuel inj name).2.cache := by
  cases hl : lookupA inj.providers name with
  | none =>
    rw [buildRun_eq_none fenv fuel inj name hl]
    exact CacheP.refl _ _
  | some p =>
    have hp : lookupA inj.providers p.name = some p := by
      rw [hwn name p hl]; exact hl
    cases hpl : planP inj.providers inj.cache fuel p with
    | noFuel =>
      rw [buildRun_eq_some fenv fuel inj name p hl, hpl]
      exact CacheP.refl _ _
    | thrownT e pending =>
      rw [buildRun_eq_some fenv fuel inj name p hl, hpl]
      have hwf := (planP_wf inj.providers inj.cache hwn fuel p hp).2 e pending hpl
      exact execL_cacheP inj.providers fenv pending
        (fun t ht => execT_cacheP inj.providers t (hwf t ht)) ⟨inj.cache, []⟩
    | okT t =>
      rw [buildRun_eq_okT fenv fuel inj name p t hl hpl]
      have hwf := (planP_wf inj.providers inj.cache hwn fuel p hp).1 t hpl
      have hE := execT_cacheP inj.providers t hwf fenv ⟨inj.cache, []⟩
      cases hX : (execT fenv t (⟨inj.cache, []⟩ : BuildSt)).1 with
      | okR results => exact hE
      | errR e =>
        show CacheP inj.providers inj.cache
          ((if e.kind = ErrKind.providerNotFound then
              ((.rejected ⟨.plainError,
                e.msg ++ "(in dependency chain: " ++
                  String.intercalate " → " (parentsPush e name).parents ++ ")", none⟩,
               (execT fenv t ⟨inj.cache, []⟩).2) : BuildOutcome × BuildSt)
            else (.rejected e, (execT fenv t ⟨inj.cache, []⟩).2)).2.cache)
        by_cases hK : e.kind = ErrKind.providerNotFound
        · rw [if_pos hK]
          exact hE
        · rw [if_neg hK]
          exact hE

/-- C10: invariant of the Injector's cache, preserved by every `build` call
(on injectors whose providers are keyed by their own names, as
`Registry#buildInjector` produces them): no build call ever removes a cache
entry; every name present after the call was either already cached or is the
name of an `isCacheable = true` provider — so the cache's domain stays a
subset of the cacheable provider names — and the construction step itself
never touches the cache, so a failed construction leaves it unchanged
(entries are written only by the success branch, after the rule succeeded). -/
theorem c10_cache_only_grows_with_cacheables (fenv : FEnv) (fuel : Nat)
    (inj : Injector) (name k : String)
    (hwn : ∀ j p, lookupA inj.providers j = some p → p.name = j)
    (hk : containsA inj.cache k = true) :
    containsA (Injector.buildRun fenv fuel inj name).2.cache k = true
    ∧ (∀ j, containsA (Injector.buildRun fenv fuel inj name).2.cache j = true →
        containsA inj.cache j = true
        ∨ ∃ p, lookupA inj.providers j = some p ∧ p.isCacheable = true)
    ∧ (∀ p results st, (buildProviderM fenv p results st).2.cache = st.cache) := by
  have h := buildRun_cacheP fenv fuel inj name hwn
  exact ⟨h.1 k hk, h.2, fun p results st => buildProviderM_cache fenv p results st⟩

/-- C10 witness: the concrete invariant instance on `injCached`. -/
theorem c10_witness :
    (∀ j p, lookupA injCached.providers j = some p → p.name = j)
    ∧ containsA injCached.cache "c" = true
    ∧ containsA (Injector.buildRun fenvZero 1 injCached "c").2.cache "c" = true
    ∧ (∀ j, containsA (Injector.buildRun fenvZero 1 injCached "c").2.cache j = true →
        containsA injCached.cache j = true
        ∨ ∃ p, lookupA injCached.providers j = some p ∧ p.isCacheable = true)
    ∧ (∀ p results st, (buildProviderM fenvZero p results st).2.cache = st.cache) := by
  have hwn : ∀ j p, lookupA injCached.providers j = some p → p.name = j := by
    intro j p h
    simp only [injCached, lookupA] at h
    split at h
    · rename_i hj
      cases h
      exact hj.symm ▸ rfl
    · exact absurd h (by simp)
  have h := c10_cache_only_grows_with_cacheables fenvZero 1 injCached "c" "c" hwn (by decide)
  exact ⟨hwn, by decide, h.1, h.2.1, h.2.2⟩

end Ij
